import Mathlib

/-!
Verification development for the `camelbot` repository.

The repository has two scripts:

* `scrap.py` — fetches a page and extracts a JSON inventory of interactive
  controls.  The core logic (the Control Extractor and Inventory Serializer)
  is embedded below.  Parsing raw markup into a document tree is delegated to
  an external library (BeautifulSoup with the `html.parser` builder); the
  embedding therefore works on parsed document trees (`Node` / `NodeList`)
  and models every step the script performs after parsing:
  `_remove_comments`, `_remove_noise`, `soup.select(CONTROL_SELECTOR)`,
  `_is_hidden`, `el.get_text(" ", strip=True)`, `_normalize_text`,
  text truncation, `_filter_attrs`, `ControlItem`, `to_compact_dict` and
  `inventory_to_json` (the latter models
  `json.dumps(payload, ensure_ascii=False, separators=(",", ":"))`).

* `llm.py` — posts one chat prompt and handles the JSON response; its
  response-handling tail (lines 15-20) is embedded as `runScript` over a
  model of Python JSON values.

All definitions are by structural recursion so that concrete scenarios
evaluate by `decide` / `rfl`.
-/

namespace Scrap

/-- A BeautifulSoup attribute value: `None`, a plain string, or a
multi-valued attribute (a list whose entries the script defensively treats
as possibly `None`, cf. `_filter_attrs`). -/
inductive AttrVal where
  | null : AttrVal
  | str (s : String) : AttrVal
  | list (entries : List (Option String)) : AttrVal
deriving DecidableEq

mutual
/-- A node of the parsed document tree: an element (tag, attributes in
document order, children), a text node, or a comment node. -/
inductive Node where
  | elem (tag : String) (attrs : List (String × AttrVal)) (children : NodeList) : Node
  | text (s : String) : Node
  | comment (s : String) : Node
/-- A list of sibling nodes (a dedicated type so that all tree functions are
structurally recursive and kernel-reducible). -/
inductive NodeList where
  | nil : NodeList
  | cons (head : Node) (tail : NodeList) : NodeList
end

/-- Convert an ordinary list of nodes into a `NodeList` (for writing
concrete documents conveniently). -/
def nl : List Node → NodeList
  | [] => .nil
  | n :: rest => .cons n (nl rest)

/-- Append two sibling lists (two documents side by side). -/
def nlAppend : NodeList → NodeList → NodeList
  | .nil, ys => ys
  | .cons x xs, ys => .cons x (nlAppend xs ys)

/-- The tag half of `CONTROL_SELECTOR` in `scrap.py`:
`button, a, input, textarea, select, option, label, summary, details`. -/
def CONTROL_TAGS : List String :=
  ["button", "a", "input", "textarea", "select", "option", "label", "summary", "details"]

/-- The `[role=...]` half of `CONTROL_SELECTOR` in `scrap.py`. -/
def CONTROL_ROLES : List String :=
  ["button", "link", "textbox", "searchbox", "combobox", "listbox",
   "checkbox", "radio", "tab", "menuitem"]

/-- The fixed attribute allow-list `KEEP_ATTRS` of `scrap.py`. -/
def KEEP_ATTRS : List String :=
  ["id", "name", "type", "placeholder", "value", "href", "for",
   "role", "aria-label", "aria-labelledby", "aria-describedby",
   "data-testid", "data-test", "data-qa"]

/-- The `NOISE_TAGS` tuple of `scrap.py`. -/
def NOISE_TAGS : List String :=
  ["script", "style", "noscript", "svg", "img", "video", "canvas"]

/-- Python `str.split()` whitespace (the ASCII whitespace characters). -/
def isPySpace (c : Char) : Bool :=
  c == ' ' || c == '\t' || c == '\n' || c == '\r' || c == '\x0b' || c == '\x0c'

/-- Python `str.strip()` on a character list. -/
def pyStripChars (cs : List Char) : List Char :=
  ((cs.dropWhile isPySpace).reverse.dropWhile isPySpace).reverse

/-- Helper for `pyWords`: accumulate the current (reversed) token while
scanning. -/
def wsTokensAux : List Char → List Char → List (List Char)
  | cur, [] => if cur = [] then [] else [cur.reverse]
  | cur, c :: cs =>
    if isPySpace c then
      if cur = [] then wsTokensAux [] cs else cur.reverse :: wsTokensAux [] cs
    else wsTokensAux (c :: cur) cs

/-- Python `str.split()` with no separator: maximal non-whitespace runs, no
empty tokens. -/
def pyWords (cs : List Char) : List (List Char) := wsTokensAux [] cs

/-- Python `" ".join(...)` on character lists. -/
def joinSpace : List (List Char) → List Char
  | [] => []
  | [w] => w
  | w :: ws => w ++ ' ' :: joinSpace ws

/-- The body of `_normalize_text` at character level:
`" ".join(text.split()).strip()`. -/
def normalizeChars (cs : List Char) : List Char :=
  pyStripChars (joinSpace (pyWords cs))

/-- `_normalize_text` from `scrap.py`. -/
def _normalize_text (s : String) : String :=
  String.mk (normalizeChars s.data)

/-- Python `el.get(k)` on the attribute mapping (first binding wins; a
parsed element never carries duplicate attribute names). -/
def getAttr (attrs : List (String × AttrVal)) (k : String) : Option AttrVal :=
  (attrs.find? (fun p => p.1 == k)).map (fun p => p.2)

/-- Python `(el.get(k) or "")` for the attributes `_is_hidden` inspects.
Under the `html.parser` builder, `aria-hidden` and `type` are never
multi-valued, so the attribute value is absent, `None`, or a plain string;
absent / `None` / `""` are all falsy and give `""`. -/
def attrTruthyStr (attrs : List (String × AttrVal)) (k : String) : String :=
  match getAttr attrs k with
  | some (.str s) => s
  | _ => ""

/-- Python `str.lower()` (ASCII case mapping, which is all the script
compares against). -/
def lowerChars (cs : List Char) : List Char := cs.map Char.toLower

/-- `_is_hidden` from `scrap.py`. -/
def _is_hidden (tag : String) (attrs : List (String × AttrVal)) : Bool :=
  lowerChars (attrTruthyStr attrs "aria-hidden").data == "true".data ||
  (tag == "input" && lowerChars (attrTruthyStr attrs "type").data == "hidden".data)

/-- Is `pre` a prefix of `k` (Python `k.startswith(pre)`)? -/
def isPrefixChars : List Char → List Char → Bool
  | [], _ => true
  | _ :: _, [] => false
  | p :: ps, c :: cs => p == c && isPrefixChars ps cs

/-- The keep condition of `_filter_attrs`:
`k in keep or k.startswith("data-test")`. -/
def keepKey (k : String) : Bool :=
  KEEP_ATTRS.contains k || isPrefixChars "data-test".data k.data

/-- The value handling of `_filter_attrs`: `None` values are skipped, list
values are joined with single spaces after dropping `None` entries, string
values pass through (`str` of a string is itself). -/
def pyAttrValue : AttrVal → Option String
  | .null => none
  | .str s => some s
  | .list entries => some (String.mk (joinSpace ((entries.filterMap id).map String.data)))

/-- `_filter_attrs` from `scrap.py` (iteration in attribute document order,
matching Python dict insertion order). -/
def _filter_attrs (attrs : List (String × AttrVal)) : List (String × String) :=
  attrs.filterMap (fun p =>
    if keepKey p.1 then (pyAttrValue p.2).map (fun v => (p.1, v)) else none)

/-- Does an element match `CONTROL_SELECTOR`? Either its tag is one of the
interactive tags, or it carries a `role` attribute whose (string) value is
one of the interactive roles. -/
def matchesSelector (tag : String) (attrs : List (String × AttrVal)) : Bool :=
  CONTROL_TAGS.contains tag ||
  (match getAttr attrs "role" with
   | some (.str v) => CONTROL_ROLES.contains v
   | _ => false)

/-- Is this node a comment node? -/
def isCommentNode : Node → Bool
  | .comment _ => true
  | _ => false

/-- Is this node an element with a noise tag? -/
def isNoiseNode : Node → Bool
  | .elem t _ _ => NOISE_TAGS.contains t
  | _ => false

mutual
/-- `_remove_comments` on a node: remove every comment in the subtree. -/
def stripCommentsNode : Node → Node
  | .elem t a cs => .elem t a (stripCommentsList cs)
  | n => n
/-- `_remove_comments` on a sibling list. -/
def stripCommentsList : NodeList → NodeList
  | .nil => .nil
  | .cons n rest =>
    if isCommentNode n then stripCommentsList rest
    else .cons (stripCommentsNode n) (stripCommentsList rest)
end

mutual
/-- `_remove_noise` on a node: decompose (delete the whole subtree of)
every element whose tag is in `NOISE_TAGS`. -/
def stripNoiseNode : Node → Node
  | .elem t a cs => .elem t a (stripNoiseList cs)
  | n => n
/-- `_remove_noise` on a sibling list. -/
def stripNoiseList : NodeList → NodeList
  | .nil => .nil
  | .cons n rest =>
    if isNoiseNode n then stripNoiseList rest
    else .cons (stripNoiseNode n) (stripNoiseList rest)
end

mutual
/-- `soup.select(CONTROL_SELECTOR)` on a node: all matching elements of the
subtree in depth-first document order (the element itself first). -/
def selectNode : Node → List Node
  | .elem t a cs =>
    (if matchesSelector t a then [Node.elem t a cs] else []) ++ selectList cs
  | _ => []
/-- `soup.select(CONTROL_SELECTOR)` on a sibling list. -/
def selectList : NodeList → List Node
  | .nil => []
  | .cons n rest => selectNode n ++ selectList rest
end

mutual
/-- The descendant strings of a node in document order (BeautifulSoup
`.strings`; comments are `NavigableString`s and are included, but the
script removes them before any text is read). -/
def textStringsNode : Node → List String
  | .elem _ _ cs => textStringsList cs
  | .text s => [s]
  | .comment s => [s]
/-- Descendant strings of a sibling list. -/
def textStringsList : NodeList → List String
  | .nil => []
  | .cons n rest => textStringsNode n ++ textStringsList rest
end

/-- `el.get_text(" ", strip=True)` for an element with the given children:
each descendant string is stripped, empty results are skipped, and the rest
are joined with a single space. -/
def elementText (children : NodeList) : List Char :=
  joinSpace (((textStringsList children).map (fun s => pyStripChars s.data)).filter
    (fun l => !l.isEmpty))

/-- Python `s[:k]` (a stop index only; negative stops count from the end,
clamped at zero). -/
def pySliceTo (cs : List Char) (k : Int) : List Char :=
  cs.take (if k < 0 then ((cs.length : Int) + k).toNat else k.toNat)

/-- The exact string literal appended by line 188 of `scrap.py`.  The source
file stores the UTF-8 bytes `c3 a2 e2 82 ac c2 a6`, i.e. the THREE
characters below (a mojibake rendering of the single ellipsis character),
not the one-character ellipsis. -/
def ELL : String := "â€¦"

/-- The truncation step of `extract_controls_inventory`:
`if text and len(text) > max_text_len: text = text[: max_text_len - 1] + ELL`. -/
def truncateText (max_text_len : Int) (text : List Char) : List Char :=
  if text ≠ [] ∧ max_text_len < (text.length : Int) then
    pySliceTo text (max_text_len - 1) ++ ELL.data
  else text

/-- The `ControlItem` dataclass of `scrap.py`. -/
structure ControlItem where
  tag : String
  text : Option String := none
  attrs : Option (List (String × String)) := none
deriving DecidableEq

/-- The loop body of `extract_controls_inventory` for one selected node:
skip hidden elements, normalize and truncate the text, filter the
attributes, drop the element when both are empty, and otherwise build a
`ControlItem` (with `text or None` and `attrs or None`). -/
def processNode (max_text_len : Int) : Node → Option ControlItem
  | .elem tag attrs children =>
    if _is_hidden tag attrs then none
    else
      let text := truncateText max_text_len (normalizeChars (elementText children))
      let fattrs := _filter_attrs attrs
      if text = [] ∧ fattrs = [] then none
      else some ⟨tag, if text = [] then none else some (String.mk text),
                 if fattrs = [] then none else some fattrs⟩
  | _ => none

/-- `extract_controls_inventory` from `scrap.py`, from the parsed tree
onward: remove comments, remove noise subtrees, select the control
elements in document order, and process each. -/
def extract_controls_inventory (soup : NodeList) (max_text_len : Int) : List ControlItem :=
  (selectList (stripNoiseList (stripCommentsList soup))).filterMap (processNode max_text_len)

/-- A JSON field value as produced by `to_compact_dict`: either a string
(`tag`, `text`) or a string-to-string object (`attrs`).  The payload never
contains any other JSON shape, so no recursive JSON type is needed. -/
inductive JField where
  | jstr (s : String) : JField
  | jobj (fields : List (String × String)) : JField
deriving DecidableEq

/-- `ControlItem.to_compact_dict`: `{"tag": ...}` always, `"text"` only when
the text is truthy (neither `None` nor empty), `"attrs"` only when the
attribute dict is truthy (neither `None` nor empty); Python dicts preserve
this insertion order. -/
def to_compact_dict (it : ControlItem) : List (String × JField) :=
  [("tag", JField.jstr it.tag)] ++
  (match it.text with
   | some s => if s = "" then [] else [("text", JField.jstr s)]
   | none => []) ++
  (match it.attrs with
   | some l => if l = [] then [] else [("attrs", JField.jobj l)]
   | none => [])

/-- One hex digit, lowercase, as emitted by `json.dumps` `\uXXXX` escapes. -/
def hexDigitChar (n : Nat) : Char :=
  if n < 10 then Char.ofNat (48 + n) else Char.ofNat (87 + n)

/-- The escape `json.dumps(..., ensure_ascii=False)` applies to one
character: `"` and `\` are backslash-escaped, the five named control
characters use their short forms, the remaining control characters use
`\u00XX`, and every other character (including all non-ASCII) is emitted
literally. -/
def escapeChar (c : Char) : List Char :=
  if c = '"' then ['\\', '"']
  else if c = '\\' then ['\\', '\\']
  else if c = '\n' then ['\\', 'n']
  else if c = '\t' then ['\\', 't']
  else if c = '\r' then ['\\', 'r']
  else if c = '\x08' then ['\\', 'b']
  else if c = '\x0c' then ['\\', 'f']
  else if c.toNat < 32 then
    ['\\', 'u', '0', '0', hexDigitChar (c.toNat / 16), hexDigitChar (c.toNat % 16)]
  else [c]

/-- Escape every character of a string body. -/
def escapeChars : List Char → List Char
  | [] => []
  | c :: cs => escapeChar c ++ escapeChars cs

/-- A JSON string literal: quote, escaped body, quote. -/
def renderQString (s : String) : List Char :=
  '"' :: (escapeChars s.data ++ ['"'])

/-- One `"key":"value"` pair of the `attrs` object. -/
def renderPairChars (p : String × String) : List Char :=
  renderQString p.1 ++ ':' :: renderQString p.2

/-- The remaining pairs of an `attrs` object, each preceded by a comma. -/
def renderAttrTail : List (String × String) → List Char
  | [] => []
  | p :: ps => ',' :: (renderPairChars p ++ renderAttrTail ps)

/-- The `attrs` object in compact form. -/
def renderAttrsObj : List (String × String) → List Char
  | [] => ['\x7b', '\x7d']
  | p :: ps => '\x7b' :: (renderPairChars p ++ renderAttrTail ps ++ ['\x7d'])

/-- Render one field value. -/
def renderField : JField → List Char
  | .jstr s => renderQString s
  | .jobj l => renderAttrsObj l

/-- The remaining fields of an item object, each preceded by a comma. -/
def renderFieldsTail : List (String × JField) → List Char
  | [] => []
  | (k, f) :: ps => ',' :: (renderQString k ++ ':' :: (renderField f ++ renderFieldsTail ps))

/-- One item object in compact form. -/
def renderObjChars : List (String × JField) → List Char
  | [] => ['\x7b', '\x7d']
  | (k, f) :: ps =>
    '\x7b' :: (renderQString k ++ ':' :: (renderField f ++ renderFieldsTail ps ++ ['\x7d']))

/-- The remaining objects of the top-level array, each preceded by a comma. -/
def renderArrTail : List (List (String × JField)) → List Char
  | [] => []
  | o :: os => ',' :: (renderObjChars o ++ renderArrTail os)

/-- The top-level array in compact form. -/
def renderArrChars : List (List (String × JField)) → List Char
  | [] => ['[', ']']
  | o :: os => '[' :: (renderObjChars o ++ renderArrTail os ++ [']'])

/-- `inventory_to_json` from `scrap.py`:
`json.dumps([it.to_compact_dict() for it in items], ensure_ascii=False,
separators=(",", ":"))` on the payload shape the items produce. -/
def inventory_to_json (items : List ControlItem) : String :=
  String.mk (renderArrChars (items.map to_compact_dict))

/-- Value of a lowercase hex digit character. -/
def hexVal (c : Char) : Nat :=
  if 97 ≤ c.toNat then c.toNat - 87 else c.toNat - 48

/-- Parse a JSON string body after its opening quote, undoing the escapes
of `escapeChar`; returns the decoded characters and the remaining input. -/
def parseJString : List Char → Option (List Char × List Char)
  | [] => none
  | c :: rest =>
    if c = '"' then some ([], rest)
    else if c = '\\' then
      match rest with
      | '"' :: r => (parseJString r).map (fun p => ('"' :: p.1, p.2))
      | '\\' :: r => (parseJString r).map (fun p => ('\\' :: p.1, p.2))
      | 'n' :: r => (parseJString r).map (fun p => ('\n' :: p.1, p.2))
      | 't' :: r => (parseJString r).map (fun p => ('\t' :: p.1, p.2))
      | 'r' :: r => (parseJString r).map (fun p => ('\r' :: p.1, p.2))
      | 'b' :: r => (parseJString r).map (fun p => ('\x08' :: p.1, p.2))
      | 'f' :: r => (parseJString r).map (fun p => ('\x0c' :: p.1, p.2))
      | 'u' :: h1 :: h2 :: h3 :: h4 :: r =>
        (parseJString r).map (fun p =>
          (Char.ofNat (hexVal h1 * 4096 + hexVal h2 * 256 + hexVal h3 * 16 + hexVal h4) :: p.1,
           p.2))
      | _ => none
    else (parseJString rest).map (fun p => (c :: p.1, p.2))
termination_by structural cs => cs

/-- Parse a complete JSON string literal (opening quote included). -/
def parseStrLit : List Char → Option (String × List Char)
  | '"' :: rest => (parseJString rest).map (fun p => (String.mk p.1, p.2))
  | _ => none

/-- Parse one `"key":"value"` pair. -/
def parsePair (cs : List Char) : Option (String × String × List Char) :=
  match parseStrLit cs with
  | some (k, ':' :: rest) =>
    match parseStrLit rest with
    | some (v, rest2) => some (k, v, rest2)
    | none => none
  | _ => none

/-- Parse the rest of an `attrs` object after its first pair: a closing
brace, or a comma followed by another pair.  `fuel` bounds the number of
pairs. -/
def parseAttrTail : Nat → List Char → Option (List (String × String) × List Char)
  | 0, _ => none
  | _ + 1, '\x7d' :: rest => some ([], rest)
  | fuel + 1, ',' :: cs =>
    match parsePair cs with
    | some (k, v, r) =>
      match parseAttrTail fuel r with
      | some (l, r2) => some ((k, v) :: l, r2)
      | none => none
    | none => none
  | _ + 1, _ => none

/-- Parse an `attrs` object (opening brace included). -/
def parseAttrsObj (fuel : Nat) : List Char → Option (List (String × String) × List Char)
  | '\x7b' :: '\x7d' :: rest => some ([], rest)
  | '\x7b' :: cs =>
    match parsePair cs with
    | some (k, v, r) =>
      match parseAttrTail fuel r with
      | some (l, r2) => some ((k, v) :: l, r2)
      | none => none
    | none => none
  | _ => none

/-- Parse one item object in the exact field order `to_compact_dict` emits:
`tag`, then optionally `text`, then optionally `attrs`. -/
def parseItem (fuel : Nat) (cs : List Char) : Option (ControlItem × List Char) :=
  match cs with
  | '\x7b' :: cs1 =>
    match parseStrLit cs1 with
    | some (k1, ':' :: cs2) =>
      if k1 = "tag" then
        match parseStrLit cs2 with
        | some (tagv, cs3) =>
          match cs3 with
          | '\x7d' :: rest => some (⟨tagv, none, none⟩, rest)
          | ',' :: cs4 =>
            match parseStrLit cs4 with
            | some (k2, ':' :: cs5) =>
              if k2 = "text" then
                match parseStrLit cs5 with
                | some (tv, '\x7d' :: rest) => some (⟨tagv, some tv, none⟩, rest)
                | some (tv, ',' :: cs6) =>
                  match parseStrLit cs6 with
                  | some (k3, ':' :: cs7) =>
                    if k3 = "attrs" then
                      match parseAttrsObj fuel cs7 with
                      | some (al, '\x7d' :: rest) => some (⟨tagv, some tv, some al⟩, rest)
                      | _ => none
                    else none
                  | _ => none
                | _ => none
              else if k2 = "attrs" then
                match parseAttrsObj fuel cs5 with
                | some (al, '\x7d' :: rest) => some (⟨tagv, none, some al⟩, rest)
                | _ => none
              else none
            | _ => none
          | _ => none
        | none => none
      else none
    | _ => none
  | _ => none

/-- Parse the rest of the top-level array after its first item: a closing
bracket, or a comma followed by another item. -/
def parseItemsTail : Nat → List Char → Option (List ControlItem × List Char)
  | 0, _ => none
  | _ + 1, ']' :: rest => some ([], rest)
  | fuel + 1, ',' :: cs =>
    match parseItem fuel cs with
    | some (it, r) =>
      match parseItemsTail fuel r with
      | some (l, r2) => some (it :: l, r2)
      | none => none
    | none => none
  | _ + 1, _ => none

/-- Parse a serialized inventory back into its list of Control Items,
requiring the whole input to be consumed. -/
def parseInventory (s : String) : Option (List ControlItem) :=
  match s.data with
  | ['[', ']'] => some []
  | '[' :: cs =>
    match parseItem (s.length + 1) cs with
    | some (it, r) =>
      match parseItemsTail (s.length + 1) r with
      | some (l, []) => some (it :: l)
      | _ => none
    | none => none
  | _ => none

end Scrap

namespace Llm

/-- A Python value deserialized from JSON (`r.json()` output). -/
inductive PyVal where
  | null : PyVal
  | bool (b : Bool) : PyVal
  | int (n : Int) : PyVal
  | str (s : String) : PyVal
  | list (l : List PyVal) : PyVal
  | dict (fields : List (String × PyVal)) : PyVal

/-- The exception kinds the script body can raise. -/
inductive PyErr where
  | typeError : PyErr
  | keyError : PyErr
  | indexError : PyErr
deriving DecidableEq

/-- What the script prints: either the extracted message content, or
`"ERROR:"` followed by the raw response payload. -/
inductive Printed where
  | content (v : PyVal) : Printed
  | errorMsg (data : PyVal) : Printed

/-- Python `v == "key"` for a JSON-shaped value: only a string can compare
equal to a string. -/
def pyEqStr (v : PyVal) (s : String) : Bool :=
  match v with
  | .str t => t == s
  | _ => false

/-- Is `needle` a contiguous substring of `hay` (Python `in` on strings)? -/
def strContains (hay needle : List Char) : Bool :=
  (List.range (hay.length + 1)).any (fun i => (hay.drop i).take needle.length == needle)

/-- Python `"key" in data`: dict key membership, list element membership,
substring test on strings; a `TypeError` otherwise. -/
def pyContains (data : PyVal) (key : String) : Except PyErr Bool :=
  match data with
  | .dict fs => .ok (fs.any (fun p => p.1 == key))
  | .list l => .ok (l.any (fun v => pyEqStr v key))
  | .str s => .ok (strContains s.data key.data)
  | _ => .error .typeError

/-- Python `data["key"]` with a string key: dict lookup (`KeyError` when
missing), `TypeError` on any non-dict. -/
def pyGetStr (data : PyVal) (key : String) : Except PyErr PyVal :=
  match data with
  | .dict fs =>
    match fs.find? (fun p => p.1 == key) with
    | some p => .ok p.2
    | none => .error .keyError
  | _ => .error .typeError

/-- Python `data[i]` with an integer index: list and string indexing with
negative wrap-around and `IndexError` out of range (indexing a string
yields a one-character string); a dict raises `KeyError` (JSON dicts have
only string keys), anything else a `TypeError`. -/
def pyGetIdx (data : PyVal) (i : Int) : Except PyErr PyVal :=
  match data with
  | .list l =>
    let j := if i < 0 then (l.length : Int) + i else i
    if 0 ≤ j ∧ j < (l.length : Int) then .ok (l.getD j.toNat .null) else .error .indexError
  | .str s =>
    let j := if i < 0 then (s.length : Int) + i else i
    if 0 ≤ j ∧ j < (s.length : Int) then .ok (.str (String.mk [s.data.getD j.toNat ' ']))
    else .error .indexError
  | .dict _ => .error .keyError
  | _ => .error .typeError

/-- Lines 17-20 of `llm.py`:
`if "choices" in data: print(data["choices"][0]["message"]["content"])
else: print("ERROR:", data)`.  An `Except.error` is an unhandled exception
terminating the script; an `Except.ok` is the printed line. -/
def runScript (data : PyVal) : Except PyErr Printed := do
  let b ← pyContains data "choices"
  if b then
    let c ← pyGetStr data "choices"
    let first ← pyGetIdx c 0
    let msg ← pyGetStr first "message"
    let content ← pyGetStr msg "content"
    pure (.content content)
  else
    pure (.errorMsg data)

/-- The expected response shape: a dict whose `"choices"` entry is a
nonempty list whose first element is a dict with a `"message"` dict that
has a `"content"` entry; returns that content. -/
def getContent (data : PyVal) : Option PyVal :=
  match data with
  | .dict fs =>
    match (fs.find? (fun p => p.1 == "choices")).map (fun p => p.2) with
    | some (PyVal.list (first :: _)) =>
      match first with
      | .dict fs2 =>
        match (fs2.find? (fun p => p.1 == "message")).map (fun p => p.2) with
        | some (PyVal.dict fs3) =>
          (fs3.find? (fun p => p.1 == "content")).map (fun p => p.2)
        | _ => none
      | _ => none
    | _ => none
  | _ => none

end Llm

namespace Scrap

/-- The spec scenario document
`<button aria-hidden="true">Hi</button><a href="/x" data-testid="link1">Click here</a>`. -/
def scenarioLinkDoc : NodeList := nl
  [ .elem "button" [("aria-hidden", .str "true")] (nl [.text "Hi"]),
    .elem "a" [("href", .str "/x"), ("data-testid", .str "link1")] (nl [.text "Click here"]) ]

/-- The spec scenario document `<input type="hidden" value="abc">`. -/
def hiddenInputDoc : NodeList :=
  nl [.elem "input" [("type", .str "hidden"), ("value", .str "abc")] .nil]

/-- A `<button>` containing a 100-character text node. -/
def longButtonDoc : NodeList :=
  nl [.elem "button" [] (nl [.text (String.mk (List.replicate 100 'a'))])]

/-- What the code actually emits for `longButtonDoc` at `max_text_len = 80`:
79 kept characters followed by the three-character mojibake literal. -/
def longButtonOut : String := String.mk (List.replicate 79 'a' ++ ELL.data)

/-- A non-hidden link wrapped in an `aria-hidden="true"` ancestor. -/
def ariaWrappedLinkDoc : NodeList :=
  nl [.elem "div" [("aria-hidden", .str "true")]
        (nl [.elem "a" [("href", .str "/x")] (nl [.text "Go"])])]

/-- A Control Item as the extractor builds it: the `text` field is `None`
or a non-empty string, the `attrs` field is `None` or a non-empty mapping
(the Python constructor call passes `text or None` and `attrs or None`). -/
def wfItem (it : ControlItem) : Prop :=
  it.text ≠ some "" ∧ it.attrs ≠ some []

/-- Number of attribute pairs an item serializes. -/
def attrsLen (it : ControlItem) : Nat :=
  match it.attrs with
  | some l => l.length
  | none => 0

/-- Fuel needed to parse back a serialized item list. -/
def needItems : List ControlItem → Nat
  | [] => 1
  | it :: its => attrsLen it + 2 + needItems its

end Scrap

namespace Scrap

set_option maxRecDepth 8000

/-- The extractor is the element-processing map over the document-order
selection of the cleaned tree (definitional). -/
theorem extract_eq_filterMap (soup : NodeList) (n : Int) :
    extract_controls_inventory soup n =
      (selectList (stripNoiseList (stripCommentsList soup))).filterMap (processNode n) := rfl

/-- Every emitted item arises from a selected element of the cleaned tree. -/
theorem mem_extract {soup : NodeList} {n : Int} {it : ControlItem}
    (h : it ∈ extract_controls_inventory soup n) :
    ∃ tag attrs children, Node.elem tag attrs children ∈
        selectList (stripNoiseList (stripCommentsList soup)) ∧
      processNode n (.elem tag attrs children) = some it := by
  rw [extract_eq_filterMap] at h
  obtain ⟨nd, hmem, hp⟩ := List.mem_filterMap.mp h
  cases nd with
  | elem tag attrs children => exact ⟨tag, attrs, children, hmem, hp⟩
  | text s => simp [processNode] at hp
  | comment s => simp [processNode] at hp

/-- A processed element is not hidden. -/
theorem not_hidden_of_processNode {n : Int} {tag : String}
    {attrs : List (String × AttrVal)} {children : NodeList} {it : ControlItem}
    (h : processNode n (.elem tag attrs children) = some it) :
    _is_hidden tag attrs = false := by
  by_contra hh
  simp [processNode, Bool.of_not_eq_false hh] at h

end Scrap

namespace Scrap

/-- C1: the claim is right and the code is wrong.  On a `<button>` holding a
100-character text node with `max_text_len = 80`, the code emits a `text` of
length 82 (not 80) whose last character is `¦` (not the ellipsis character):
the truncation step appends the source's literal `ELL`, which is the
three-character mojibake rendering of the ellipsis, so truncated text has
length `max_text_len + 2` and does not end with the ellipsis marker. -/
theorem C1_truncation_mojibake :
    extract_controls_inventory longButtonDoc 80 = [⟨"button", some longButtonOut, none⟩] ∧
    longButtonOut.length = 82 ∧
    ELL.length = 3 ∧
    longButtonOut.data.getLast? = some '¦' ∧
    longButtonOut.data.getLast? ≠ some '…' := by
  exact ⟨by decide, by decide, by decide, by decide, by decide⟩

/-- C3: an element whose `aria-hidden` attribute case-insensitively equals
"true" is never emitted; an `input` whose `type` case-insensitively equals
"hidden" is never emitted; every emitted item arises from a selected,
non-hidden element; and `<input type="hidden" value="abc">` yields an empty
output sequence. -/
theorem C3_hidden_exclusion :
    (∀ (n : Int) (tag : String) (attrs : List (String × AttrVal)) (children : NodeList)
        (v : String), getAttr attrs "aria-hidden" = some (.str v) →
        lowerChars v.data = "true".data →
        processNode n (.elem tag attrs children) = none) ∧
    (∀ (n : Int) (attrs : List (String × AttrVal)) (children : NodeList) (v : String),
        getAttr attrs "type" = some (.str v) → lowerChars v.data = "hidden".data →
        processNode n (.elem "input" attrs children) = none) ∧
    (∀ (soup : NodeList) (n : Int) (it : ControlItem),
        it ∈ extract_controls_inventory soup n →
        ∃ tag attrs children, Node.elem tag attrs children ∈
            selectList (stripNoiseList (stripCommentsList soup)) ∧
          _is_hidden tag attrs = false ∧
          processNode n (.elem tag attrs children) = some it) ∧
    extract_controls_inventory hiddenInputDoc 80 = [] := by
  refine ⟨?_, ?_, ?_, by decide⟩
  · intro n tag attrs children v h1 h2
    have hh : _is_hidden tag attrs = true := by
      simp [_is_hidden, attrTruthyStr, h1, h2]
    simp [processNode, hh]
  · intro n attrs children v h1 h2
    have hh : _is_hidden "input" attrs = true := by
      simp [_is_hidden, attrTruthyStr, h1, h2]
    simp [processNode, hh]
  · intro soup n it h
    obtain ⟨tag, attrs, children, hmem, hp⟩ := mem_extract h
    exact ⟨tag, attrs, children, hmem, not_hidden_of_processNode hp, hp⟩

/-- Witness for C3 at concrete inputs. -/
theorem C3_hidden_exclusion_witness :
    processNode 80 (.elem "span" [("aria-hidden", AttrVal.str "TRUE")] (nl [.text "Hi"])) = none ∧
    processNode 80 (.elem "input" [("type", AttrVal.str "HiDdEn")] .nil) = none ∧
    (∃ tag attrs children, Node.elem tag attrs children ∈
        selectList (stripNoiseList (stripCommentsList scenarioLinkDoc)) ∧
      _is_hidden tag attrs = false ∧
      processNode 80 (.elem tag attrs children) =
        some ⟨"a", some "Click here", some [("href", "/x"), ("data-testid", "link1")]⟩) := by
  refine ⟨C3_hidden_exclusion.1 80 "span" _ _ "TRUE" (by decide) (by decide),
          C3_hidden_exclusion.2.1 80 _ _ "HiDdEn" (by decide) (by decide),
          C3_hidden_exclusion.2.2.1 scenarioLinkDoc 80 _ (by decide)⟩

end Scrap

namespace Scrap

theorem processNode_elem_eq {n : Int} {tag : String} {attrs : List (String × AttrVal)}
    {children : NodeList} {it : ControlItem}
    (h : processNode n (.elem tag attrs children) = some it) :
    it = ⟨tag,
      (if truncateText n (normalizeChars (elementText children)) = [] then none
       else some (String.mk (truncateText n (normalizeChars (elementText children))))),
      (if _filter_attrs attrs = [] then none else some (_filter_attrs attrs))⟩ ∧
    ¬(truncateText n (normalizeChars (elementText children)) = [] ∧ _filter_attrs attrs = []) := by
  have hh := not_hidden_of_processNode h
  simp only [processNode, hh, Bool.false_eq_true, if_false] at h
  by_cases hboth : truncateText n (normalizeChars (elementText children)) = [] ∧ _filter_attrs attrs = []
  · rw [if_pos hboth] at h; exact absurd h (by simp)
  · rw [if_neg hboth] at h
    exact ⟨(Option.some.injEq .. ▸ h).symm, hboth⟩

end Scrap

namespace Scrap

theorem C5_nonempty_invariant :
    (∀ (soup : NodeList) (n : Int) (it : ControlItem),
        it ∈ extract_controls_inventory soup n →
        (∃ s, it.text = some s ∧ s ≠ "") ∨ (∃ l, it.attrs = some l ∧ l ≠ [])) ∧
    (∀ (n : Int) (tag : String) (attrs : List (String × AttrVal)) (children : NodeList),
        normalizeChars (elementText children) = [] → _filter_attrs attrs = [] →
        processNode n (.elem tag attrs children) = none) := by
  constructor
  · intro soup n it h
    obtain ⟨tag, attrs, children, _, hp⟩ := mem_extract h
    obtain ⟨heq, hnot⟩ := processNode_elem_eq hp
    by_cases htext : truncateText n (normalizeChars (elementText children)) = []
    · have hattrs : ¬ _filter_attrs attrs = [] := fun hc => hnot ⟨htext, hc⟩
      right
      exact ⟨_filter_attrs attrs, by rw [heq]; simp [htext, hattrs], hattrs⟩
    · left
      refine ⟨String.mk (truncateText n (normalizeChars (elementText children))),
        by rw [heq]; simp [htext], ?_⟩
      intro hc
      exact htext (by simpa using congrArg String.data hc)
  · intro n tag attrs children h1 h2
    simp [processNode, h1, h2, truncateText]

theorem C5_witness :
    ((∃ s, (ControlItem.mk "a" (some "Click here")
          (some [("href", "/x"), ("data-testid", "link1")])).text = some s ∧ s ≠ "") ∨
      (∃ l, (ControlItem.mk "a" (some "Click here")
          (some [("href", "/x"), ("data-testid", "link1")])).attrs = some l ∧ l ≠ [])) ∧
    processNode 80 (.elem "button" [("class", AttrVal.str "big")] (nl [.text "  "])) = none :=
  ⟨C5_nonempty_invariant.1 scenarioLinkDoc 80 _ (by decide),
   C5_nonempty_invariant.2 80 "button" _ _ (by decide) (by decide)⟩

theorem C10_attr_value_strings :
    ∀ (attrs : List (String × AttrVal)) (k v : String),
      (k, v) ∈ _filter_attrs attrs →
      ∃ av, (k, av) ∈ attrs ∧
        ((∃ s, av = AttrVal.str s ∧ v = s) ∨
         (∃ entries, av = AttrVal.list entries ∧
            v = String.mk (joinSpace ((entries.filterMap id).map String.data)))) := by
  intro attrs k v h
  obtain ⟨p, hmem, hp⟩ := List.mem_filterMap.mp h
  by_cases hk : keepKey p.1
  · rw [if_pos hk] at hp
    obtain ⟨w, hw, heq⟩ := Option.map_eq_some'.mp hp
    have hk1 : p.1 = k := congrArg Prod.fst heq
    have hv : w = v := congrArg Prod.snd heq
    subst hk1
    subst hv
    refine ⟨p.2, by simpa using hmem, ?_⟩
    cases hav : p.2 with
    | null => rw [hav] at hw; simp [pyAttrValue] at hw
    | str s =>
      left
      refine ⟨s, rfl, ?_⟩
      rw [hav] at hw
      simpa [pyAttrValue, eq_comm] using hw
    | list entries =>
      right
      refine ⟨entries, rfl, ?_⟩
      rw [hav] at hw
      simp only [pyAttrValue, Option.some.injEq] at hw
      exact hw.symm
  · simp [hk] at hp

theorem C10_witness :
    ∃ av, ("data-qa", av) ∈ [("data-qa", AttrVal.list [some "a", none, some "b"])] ∧
      ((∃ s, av = AttrVal.str s ∧ "a b" = s) ∨
       (∃ entries, av = AttrVal.list entries ∧
          "a b" = String.mk (joinSpace ((entries.filterMap id).map String.data)))) :=
  C10_attr_value_strings [("data-qa", AttrVal.list [some "a", none, some "b"])] "data-qa" "a b"
    (by decide)

end Scrap

namespace Scrap

/-- C4: `_filter_attrs` keeps exactly the attributes whose name is in
`KEEP_ATTRS` or starts with "data-test"; `data-testid` and `data-test-foo`
values are kept, `class` never survives, multi-valued attributes are joined
with single spaces, and kept values never come from a `None` value. -/
theorem C4_attr_allowlist :
    (∀ (attrs : List (String × AttrVal)) (k v : String),
        (k, v) ∈ _filter_attrs attrs →
        k ∈ KEEP_ATTRS ∨ isPrefixChars "data-test".data k.data = true) ∧
    (∀ (attrs : List (String × AttrVal)) (k : String) (av : AttrVal) (v : String),
        (k ∈ KEEP_ATTRS ∨ isPrefixChars "data-test".data k.data = true) →
        (k, av) ∈ attrs → pyAttrValue av = some v → (k, v) ∈ _filter_attrs attrs) ∧
    (∀ (attrs : List (String × AttrVal)) (v : String),
        ("data-testid", AttrVal.str v) ∈ attrs → ("data-testid", v) ∈ _filter_attrs attrs) ∧
    (∀ (attrs : List (String × AttrVal)) (v : String), ("class", v) ∉ _filter_attrs attrs) ∧
    (∀ (attrs : List (String × AttrVal)) (v : String),
        ("data-test-foo", AttrVal.str v) ∈ attrs →
        ("data-test-foo", v) ∈ _filter_attrs attrs) ∧
    (∀ (attrs : List (String × AttrVal)) (k : String) (vs : List String),
        (k ∈ KEEP_ATTRS ∨ isPrefixChars "data-test".data k.data = true) →
        (k, AttrVal.list (vs.map some)) ∈ attrs →
        (k, String.mk (joinSpace (vs.map String.data))) ∈ _filter_attrs attrs) ∧
    (∀ (attrs : List (String × AttrVal)) (k v : String),
        (k, v) ∈ _filter_attrs attrs →
        ∃ av, (k, av) ∈ attrs ∧ av ≠ AttrVal.null ∧ pyAttrValue av = some v) := by
  have keep_iff : ∀ k : String,
      keepKey k = true ↔ (k ∈ KEEP_ATTRS ∨ isPrefixChars "data-test".data k.data = true) := by
    intro k
    simp [keepKey, List.contains, List.elem_iff]
  have complete : ∀ (attrs : List (String × AttrVal)) (k : String) (av : AttrVal) (v : String),
      (k ∈ KEEP_ATTRS ∨ isPrefixChars "data-test".data k.data = true) →
      (k, av) ∈ attrs → pyAttrValue av = some v → (k, v) ∈ _filter_attrs attrs := by
    intro attrs k av v hkeep hmem hv
    refine List.mem_filterMap.mpr ⟨(k, av), hmem, ?_⟩
    rw [if_pos ((keep_iff k).mpr hkeep), hv]
    rfl
  have origin : ∀ (attrs : List (String × AttrVal)) (k v : String),
      (k, v) ∈ _filter_attrs attrs →
      ∃ av, (k, av) ∈ attrs ∧ keepKey k = true ∧ av ≠ AttrVal.null ∧ pyAttrValue av = some v := by
    intro attrs k v h
    obtain ⟨p, hmem, hp⟩ := List.mem_filterMap.mp h
    by_cases hk : keepKey p.1
    · rw [if_pos hk] at hp
      obtain ⟨w, hw, heq⟩ := Option.map_eq_some'.mp hp
      have hk1 : p.1 = k := congrArg Prod.fst heq
      have hv : w = v := congrArg Prod.snd heq
      subst hk1
      subst hv
      refine ⟨p.2, by simpa using hmem, hk, ?_, hw⟩
      intro hc
      rw [hc] at hw
      simp [pyAttrValue] at hw
    · simp [hk] at hp
  refine ⟨?_, complete, ?_, ?_, ?_, ?_, ?_⟩
  · intro attrs k v h
    obtain ⟨_, _, hk, _, _⟩ := origin attrs k v h
    exact (keep_iff k).mp hk
  · intro attrs v hmem
    exact complete attrs "data-testid" (AttrVal.str v) v (by decide) hmem rfl
  · intro attrs v h
    obtain ⟨_, _, hk, _, _⟩ := origin attrs "class" v h
    exact absurd hk (by decide)
  · intro attrs v hmem
    exact complete attrs "data-test-foo" (AttrVal.str v) v (by decide) hmem rfl
  · intro attrs k vs hkeep hmem
    have : pyAttrValue (AttrVal.list (vs.map some)) =
        some (String.mk (joinSpace (vs.map String.data))) := by
      simp [pyAttrValue, List.filterMap_map]
    exact complete attrs k (AttrVal.list (vs.map some)) _ hkeep hmem this
  · intro attrs k v h
    obtain ⟨av, hmem, _, hnull, hv⟩ := origin attrs k v h
    exact ⟨av, hmem, hnull, hv⟩

/-- Witness for C4 at concrete inputs. -/
theorem C4_attr_allowlist_witness :
    ("data-testid", "z") ∈
      _filter_attrs [("class", AttrVal.str "c"), ("data-testid", AttrVal.str "z")] ∧
    ("class", "c") ∉
      _filter_attrs [("class", AttrVal.str "c"), ("data-testid", AttrVal.str "z")] ∧
    ("data-test-foo", "w") ∈ _filter_attrs [("data-test-foo", AttrVal.str "w")] ∧
    ("role", "a b") ∈ _filter_attrs [("role", AttrVal.list [some "a", some "b"])] ∧
    (∃ av, ("id", av) ∈ [("id", AttrVal.str "i")] ∧ av ≠ AttrVal.null ∧
      pyAttrValue av = some "i") :=
  ⟨C4_attr_allowlist.2.2.1 _ "z" (by decide),
   C4_attr_allowlist.2.2.2.1 _ "c",
   C4_attr_allowlist.2.2.2.2.1 _ "w" (by decide),
   C4_attr_allowlist.2.2.2.2.2.1 _ "role" ["a", "b"] (by decide) (by decide),
   C4_attr_allowlist.2.2.2.2.2.2 _ "id" "i" (by decide)⟩

end Scrap

namespace Scrap

/-- C9: hiddenness is decided on the element itself.  Wrapping any document
fragment in a `div` carrying `aria-hidden="true"` changes nothing about the
extraction result, and a non-hidden link inside such a wrapper is emitted. -/
theorem C9_ancestor_hidden_ignored :
    (∀ (inner : Node) (n : Int),
        extract_controls_inventory
            (.cons (.elem "div" [("aria-hidden", AttrVal.str "true")]
              (.cons inner .nil)) .nil) n =
          extract_controls_inventory (.cons inner .nil) n) ∧
    extract_controls_inventory ariaWrappedLinkDoc 80 =
      [⟨"a", some "Go", some [("href", "/x")]⟩] := by
  refine ⟨fun inner n => ?_, by decide⟩
  have h2 : ∀ (a : List (String × AttrVal)) (cs : NodeList),
      isNoiseNode (.elem "div" a cs) = NOISE_TAGS.contains "div" := fun _ _ => rfl
  have hval : NOISE_TAGS.contains "div" = false := by decide
  have h3 : matchesSelector "div" [("aria-hidden", AttrVal.str "true")] = false := by decide
  rw [extract_eq_filterMap, extract_eq_filterMap]
  simp [stripCommentsList, stripCommentsNode, isCommentNode,
    stripNoiseList, stripNoiseNode, h2, hval, selectList, selectNode, h3]

theorem stripCommentsList_nlAppend : ∀ a b : NodeList,
    stripCommentsList (nlAppend a b) = nlAppend (stripCommentsList a) (stripCommentsList b)
  | .nil, b => rfl
  | .cons n rest, b => by
    cases n <;>
      simp [nlAppend, stripCommentsList, isCommentNode, stripCommentsList_nlAppend rest b]

theorem stripNoiseList_nlAppend : ∀ a b : NodeList,
    stripNoiseList (nlAppend a b) = nlAppend (stripNoiseList a) (stripNoiseList b)
  | .nil, b => rfl
  | .cons n rest, b => by
    cases n with
    | elem t at_ cs =>
      by_cases h : isNoiseNode (.elem t at_ cs) <;>
        simp [nlAppend, stripNoiseList, h, stripNoiseList_nlAppend rest b]
    | text s => simp [nlAppend, stripNoiseList, isNoiseNode, stripNoiseList_nlAppend rest b]
    | comment s => simp [nlAppend, stripNoiseList, isNoiseNode, stripNoiseList_nlAppend rest b]

theorem selectList_nlAppend : ∀ a b : NodeList,
    selectList (nlAppend a b) = selectList a ++ selectList b
  | .nil, b => rfl
  | .cons n rest, b => by
    simp [nlAppend, selectList, selectList_nlAppend rest b]

/-- C6: extraction preserves document order — concatenating two documents
concatenates their extraction results in order, the output is exactly the
element-processing map over the document-order selection, and the spec
scenario yields the single expected link item. -/
theorem C6_document_order :
    (∀ (s1 s2 : NodeList) (n : Int),
        extract_controls_inventory (nlAppend s1 s2) n =
          extract_controls_inventory s1 n ++ extract_controls_inventory s2 n) ∧
    (∀ (soup : NodeList) (n : Int),
        extract_controls_inventory soup n =
          (selectList (stripNoiseList (stripCommentsList soup))).filterMap (processNode n)) ∧
    extract_controls_inventory scenarioLinkDoc 80 =
      [⟨"a", some "Click here", some [("href", "/x"), ("data-testid", "link1")]⟩] := by
  refine ⟨?_, fun soup n => rfl, by decide⟩
  intro s1 s2 n
  rw [extract_eq_filterMap, stripCommentsList_nlAppend, stripNoiseList_nlAppend,
    selectList_nlAppend, List.filterMap_append]
  rfl

end Scrap

namespace Llm

/-- C2 counterexample: the response payload `{"choices": []}` lacks the
expected shape (there is no first choice), yet the script does not recover
and print an error — it raises an unhandled `IndexError`, because the code
only checks for the presence of the `"choices"` key before indexing. -/
theorem C2_counterexample :
    getContent (PyVal.dict [("choices", PyVal.list [])]) = none ∧
    runScript (PyVal.dict [("choices", PyVal.list [])]) = Except.error PyErr.indexError :=
  ⟨rfl, rfl⟩

/-- The recovery branch: when the membership test comes out false the
script prints "ERROR:" plus the raw payload. -/
theorem errorMsg_of_contains_false (data : PyVal)
    (h : pyContains data "choices" = Except.ok false) :
    runScript data = Except.ok (Printed.errorMsg data) := by
  simp [runScript, h, bind, Except.instMonad, Except.bind, pure, Except.pure]

/-- The recovery branch is taken only then: an "ERROR:" print implies the
membership test came out false. -/
theorem contains_false_of_errorMsg (data : PyVal)
    (h : runScript data = Except.ok (Printed.errorMsg data)) :
    pyContains data "choices" = Except.ok false := by
  cases hm : pyContains data "choices" with
  | error e =>
    simp [runScript, hm, bind, Except.instMonad, Except.bind] at h
  | ok b =>
    cases b with
    | false => rfl
    | true =>
      exfalso
      cases h1 : pyGetStr data "choices" with
      | error e =>
        simp [runScript, hm, h1, bind, Except.instMonad, Except.bind] at h
      | ok c =>
        cases h2 : pyGetIdx c 0 with
        | error e =>
          simp [runScript, hm, h1, h2, bind, Except.instMonad, Except.bind] at h
        | ok first =>
          cases h3 : pyGetStr first "message" with
          | error e =>
            simp [runScript, hm, h1, h2, h3, bind, Except.instMonad, Except.bind] at h
          | ok msg =>
            cases h4 : pyGetStr msg "content" with
            | error e =>
              simp [runScript, hm, h1, h2, h3, h4, bind, Except.instMonad, Except.bind,
                Functor.map, Except.map, pure, Except.pure] at h
            | ok content =>
              simp [runScript, hm, h1, h2, h3, h4, bind, Except.instMonad, Except.bind,
                Functor.map, Except.map, pure, Except.pure] at h

/-- The success branch: a fully well-shaped response prints the first
choice's message content. -/
theorem content_of_getContent (data c : PyVal) (h : getContent data = some c) :
    runScript data = Except.ok (Printed.content c) := by
  cases data with
  | dict fs =>
    simp only [getContent] at h
    cases hfind : fs.find? (fun p => p.1 == "choices") with
    | none => rw [hfind] at h; simp at h
    | some pc =>
      rw [hfind] at h
      simp only [Option.map_some'] at h
      cases hpc : pc.2 with
      | list l =>
        cases l with
        | nil => rw [hpc] at h; simp at h
        | cons first rest =>
          rw [hpc] at h
          cases first with
          | dict fs2 =>
            simp only at h
            cases hfind2 : fs2.find? (fun p => p.1 == "message") with
            | none => rw [hfind2] at h; simp at h
            | some pm =>
              rw [hfind2] at h
              simp only [Option.map_some'] at h
              cases hpm : pm.2 with
              | dict fs3 =>
                rw [hpm] at h
                simp only at h
                cases hfind3 : fs3.find? (fun p => p.1 == "content") with
                | none => rw [hfind3] at h; simp at h
                | some px =>
                  rw [hfind3] at h
                  simp only [Option.map_some', Option.some.injEq] at h
                  have hmem := List.mem_of_find?_eq_some hfind
                  have hbeq := List.find?_some hfind
                  have hany : fs.any (fun p => p.1 == "choices") = true :=
                    List.any_eq_true.mpr ⟨pc, hmem, hbeq⟩
                  simp only [runScript, pyContains, hany, Except.bind, bind, if_true,
                    pyGetStr, hfind, hpc, pyGetIdx]
                  norm_num
                  simp only [pyGetStr, hfind2, hpm, hfind3, Except.bind, h]
                  rfl
              | null => rw [hpm] at h; simp at h
              | bool b => rw [hpm] at h; simp at h
              | int k => rw [hpm] at h; simp at h
              | str s => rw [hpm] at h; simp at h
              | list l2 => rw [hpm] at h; simp at h
          | null => simp at h
          | bool b => simp at h
          | int k => simp at h
          | str s => simp at h
          | list l2 => simp at h
      | null => rw [hpc] at h; simp at h
      | bool b => rw [hpc] at h; simp at h
      | int k => rw [hpc] at h; simp at h
      | str s => rw [hpc] at h; simp at h
      | dict fs2 => rw [hpc] at h; simp at h
  | null => simp [getContent] at h
  | bool b => simp [getContent] at h
  | int k => simp [getContent] at h
  | str s => simp [getContent] at h
  | list l => simp [getContent] at h

/-- Every payload that is neither recovered (membership test false) nor
fully well-shaped makes the script raise an unhandled exception. -/
theorem error_of_malformed (data : PyVal)
    (hm : pyContains data "choices" ≠ Except.ok false)
    (hc : getContent data = none) :
    ∃ e, runScript data = Except.error e := by
  cases data with
  | null =>
    exact ⟨.typeError, by simp [runScript, pyContains, bind, Except.instMonad, Except.bind]⟩
  | bool b =>
    exact ⟨.typeError, by simp [runScript, pyContains, bind, Except.instMonad, Except.bind]⟩
  | int k =>
    exact ⟨.typeError, by simp [runScript, pyContains, bind, Except.instMonad, Except.bind]⟩
  | str s =>
    have htrue : strContains s.data "choices".data = true := by
      cases hcc : strContains s.data "choices".data with
      | false => exact absurd (by simp [pyContains, hcc]) hm
      | true => rfl
    exact ⟨.typeError, by
      simp [runScript, pyContains, htrue, pyGetStr, bind, Except.instMonad, Except.bind]⟩
  | list l =>
    have htrue : l.any (fun v => pyEqStr v "choices") = true := by
      cases hcc : l.any (fun v => pyEqStr v "choices") with
      | false => exact absurd (by simp [pyContains, hcc]) hm
      | true => rfl
    exact ⟨.typeError, by
      simp [runScript, pyContains, htrue, pyGetStr, bind, Except.instMonad, Except.bind]⟩
  | dict fs =>
    have hany : fs.any (fun p => p.1 == "choices") = true := by
      cases hcc : fs.any (fun p => p.1 == "choices") with
      | false => exact absurd (by simp [pyContains, hcc]) hm
      | true => rfl
    obtain ⟨pc, hfind⟩ : ∃ pc, fs.find? (fun p => p.1 == "choices") = some pc := by
      cases hf : fs.find? (fun p => p.1 == "choices") with
      | some pc => exact ⟨pc, rfl⟩
      | none =>
        obtain ⟨x, hx, hpx⟩ := List.any_eq_true.mp hany
        exact absurd hpx (by simpa using List.find?_eq_none.mp hf x hx)
    cases hpc : pc.2 with
    | null =>
      exact ⟨.typeError, by
        simp [runScript, pyContains, hany, pyGetStr, hfind, hpc, pyGetIdx,
          bind, Except.instMonad, Except.bind]⟩
    | bool b =>
      exact ⟨.typeError, by
        simp [runScript, pyContains, hany, pyGetStr, hfind, hpc, pyGetIdx,
          bind, Except.instMonad, Except.bind]⟩
    | int k =>
      exact ⟨.typeError, by
        simp [runScript, pyContains, hany, pyGetStr, hfind, hpc, pyGetIdx,
          bind, Except.instMonad, Except.bind]⟩
    | dict fs2 =>
      exact ⟨.keyError, by
        simp [runScript, pyContains, hany, pyGetStr, hfind, hpc, pyGetIdx,
          bind, Except.instMonad, Except.bind]⟩
    | str s =>
      by_cases hlen : (0 : Int) < (s.length : Int)
      · exact ⟨.typeError, by
          simp [runScript, pyContains, hany, pyGetStr, hfind, hpc, pyGetIdx, hlen,
            bind, Except.instMonad, Except.bind]⟩
      · exact ⟨.indexError, by
          simp [runScript, pyContains, hany, pyGetStr, hfind, hpc, pyGetIdx, hlen,
            bind, Except.instMonad, Except.bind]⟩
    | list l =>
      cases l with
      | nil =>
        exact ⟨.indexError, by
          simp [runScript, pyContains, hany, pyGetStr, hfind, hpc, pyGetIdx,
            bind, Except.instMonad, Except.bind]⟩
      | cons first rest =>
        have hgc : (match first with
            | PyVal.dict fs2 =>
              match (fs2.find? (fun p => p.1 == "message")).map (fun p => p.2) with
              | some (PyVal.dict fs3) =>
                (fs3.find? (fun p => p.1 == "content")).map (fun p => p.2)
              | _ => none
            | _ => none) = none := by
          simpa only [getContent, hfind, Option.map_some', hpc] using hc
        cases first with
        | null =>
          exact ⟨.typeError, by
            simp [runScript, pyContains, hany, pyGetStr, hfind, hpc, pyGetIdx,
              bind, Except.instMonad, Except.bind]⟩
        | bool b =>
          exact ⟨.typeError, by
            simp [runScript, pyContains, hany, pyGetStr, hfind, hpc, pyGetIdx,
              bind, Except.instMonad, Except.bind]⟩
        | int k =>
          exact ⟨.typeError, by
            simp [runScript, pyContains, hany, pyGetStr, hfind, hpc, pyGetIdx,
              bind, Except.instMonad, Except.bind]⟩
        | str s2 =>
          exact ⟨.typeError, by
            simp [runScript, pyContains, hany, pyGetStr, hfind, hpc, pyGetIdx,
              bind, Except.instMonad, Except.bind]⟩
        | list l2 =>
          exact ⟨.typeError, by
            simp [runScript, pyContains, hany, pyGetStr, hfind, hpc, pyGetIdx,
              bind, Except.instMonad, Except.bind]⟩
        | dict fs2 =>
          simp only at hgc
          cases hfind2 : fs2.find? (fun p => p.1 == "message") with
          | none =>
            exact ⟨.keyError, by
              simp [runScript, pyContains, hany, pyGetStr, hfind, hpc, hfind2, pyGetIdx,
                bind, Except.instMonad, Except.bind]⟩
          | some pm =>
            rw [hfind2] at hgc
            simp only [Option.map_some'] at hgc
            cases hpm : pm.2 with
            | null =>
              exact ⟨.typeError, by
                simp [runScript, pyContains, hany, pyGetStr, hfind, hpc, hfind2, hpm,
                  pyGetIdx, bind, Except.instMonad, Except.bind]⟩
            | bool b =>
              exact ⟨.typeError, by
                simp [runScript, pyContains, hany, pyGetStr, hfind, hpc, hfind2, hpm,
                  pyGetIdx, bind, Except.instMonad, Except.bind]⟩
            | int k =>
              exact ⟨.typeError, by
                simp [runScript, pyContains, hany, pyGetStr, hfind, hpc, hfind2, hpm,
                  pyGetIdx, bind, Except.instMonad, Except.bind]⟩
            | str s2 =>
              exact ⟨.typeError, by
                simp [runScript, pyContains, hany, pyGetStr, hfind, hpc, hfind2, hpm,
                  pyGetIdx, bind, Except.instMonad, Except.bind]⟩
            | list l2 =>
              exact ⟨.typeError, by
                simp [runScript, pyContains, hany, pyGetStr, hfind, hpc, hfind2, hpm,
                  pyGetIdx, bind, Except.instMonad, Except.bind]⟩
            | dict fs3 =>
              cases hfind3 : fs3.find? (fun p => p.1 == "content") with
              | none =>
                exact ⟨.keyError, by
                  simp [runScript, pyContains, hany, pyGetStr, hfind, hpc, hfind2, hpm,
                    hfind3, pyGetIdx, bind, Except.instMonad, Except.bind]⟩
              | some px =>
                rw [hpm] at hgc
                have h5 : Option.map (fun p => (p : String × PyVal).2)
                    (List.find? (fun p => p.1 == "content") fs3) = none := hgc
                rw [hfind3] at h5
                simp at h5

/-- C2 amended: the script recovers locally — printing "ERROR:" followed
by the raw payload — exactly when the membership test `"choices" in data`
comes out false; a fully well-shaped response prints the first choice's
message content; and every other payload makes the script raise an
unhandled exception instead of recovering. -/
theorem C2_amended_error_handling :
    ∀ data : PyVal,
      (runScript data = Except.ok (Printed.errorMsg data) ↔
        pyContains data "choices" = Except.ok false) ∧
      (∀ c : PyVal, getContent data = some c →
        runScript data = Except.ok (Printed.content c)) ∧
      (pyContains data "choices" ≠ Except.ok false → getContent data = none →
        ∃ e, runScript data = Except.error e) :=
  fun data =>
    ⟨⟨contains_false_of_errorMsg data, errorMsg_of_contains_false data⟩,
     fun c h => content_of_getContent data c h,
     fun h1 h2 => error_of_malformed data h1 h2⟩

/-- Witness for the amended C2 at concrete payloads: a payload without the
key is recovered, a well-shaped one prints its content, and a malformed
payload containing "choices" raises an exception. -/
theorem C2_amended_witness :
    runScript (PyVal.dict [("error", PyVal.str "overloaded")]) =
      Except.ok (Printed.errorMsg (PyVal.dict [("error", PyVal.str "overloaded")])) ∧
    runScript (PyVal.dict [("choices", PyVal.list
        [PyVal.dict [("message", PyVal.dict [("content", PyVal.str "Hello")])]])]) =
      Except.ok (Printed.content (PyVal.str "Hello")) ∧
    (∃ e, runScript (PyVal.dict [("choices", PyVal.str "x")]) = Except.error e) :=
  ⟨(C2_amended_error_handling (PyVal.dict [("error", PyVal.str "overloaded")])).1.mpr rfl,
   (C2_amended_error_handling (PyVal.dict [("choices", PyVal.list
      [PyVal.dict [("message", PyVal.dict [("content", PyVal.str "Hello")])]])])).2.1
     (PyVal.str "Hello") rfl,
   (C2_amended_error_handling (PyVal.dict [("choices", PyVal.str "x")])).2.2
     (fun h => Bool.noConfusion (Except.ok.inj h)) rfl⟩

end Llm

namespace Scrap

set_option maxHeartbeats 1000000

theorem mk_data_eq (s : String) : String.mk s.data = s := by
  cases s
  rfl

theorem hexVal_hexDigitChar {m : Nat} (h : m < 16) : hexVal (hexDigitChar m) = m := by
  interval_cases m <;> decide

theorem escapeChars_cons (c : Char) (cs : List Char) :
    escapeChars (c :: cs) = escapeChar c ++ escapeChars cs := rfl

theorem parseJString_escape : ∀ (cs rest : List Char),
    parseJString (escapeChars cs ++ '"' :: rest) = some (cs, rest)
  | [], rest => by
    show parseJString ('"' :: rest) = some ([], rest)
    rw [parseJString.eq_def]
    rfl
  | c :: cs, rest => by
    have ih := parseJString_escape cs rest
    rw [escapeChars_cons, List.append_assoc]
    by_cases h1 : c = '"'
    · subst h1
      rw [show escapeChar '"' = ['\\', '"'] from rfl]
      simp [parseJString, ih]
    · by_cases h2 : c = '\\'
      · subst h2
        rw [show escapeChar '\\' = ['\\', '\\'] from rfl]
        simp [parseJString, ih]
      · by_cases h3 : c = '\n'
        · subst h3
          rw [show escapeChar '\n' = ['\\', 'n'] from rfl]
          simp [parseJString, ih]
        · by_cases h4 : c = '\t'
          · subst h4
            rw [show escapeChar '\t' = ['\\', 't'] from rfl]
            simp [parseJString, ih]
          · by_cases h5 : c = '\r'
            · subst h5
              rw [show escapeChar '\r' = ['\\', 'r'] from rfl]
              simp [parseJString, ih]
            · by_cases h6 : c = '\x08'
              · subst h6
                rw [show escapeChar '\x08' = ['\\', 'b'] from rfl]
                simp [parseJString, ih]
              · by_cases h7 : c = '\x0c'
                · subst h7
                  rw [show escapeChar '\x0c' = ['\\', 'f'] from rfl]
                  simp [parseJString, ih]
                · by_cases h8 : c.toNat < 32
                  · have he : escapeChar c =
                        ['\\', 'u', '0', '0', hexDigitChar (c.toNat / 16),
                         hexDigitChar (c.toNat % 16)] := by
                      simp only [escapeChar]
                      rw [if_neg h1, if_neg h2, if_neg h3, if_neg h4, if_neg h5, if_neg h6,
                        if_neg h7, if_pos h8]
                    rw [he]
                    simp only [List.cons_append, List.nil_append]
                    rw [parseJString.eq_def]
                    have hd1 : hexVal (hexDigitChar (c.toNat / 16)) = c.toNat / 16 :=
                      hexVal_hexDigitChar (by omega)
                    have hd2 : hexVal (hexDigitChar (c.toNat % 16)) = c.toNat % 16 :=
                      hexVal_hexDigitChar (Nat.mod_lt _ (by omega))
                    simp only [ih, Option.map_some', hd1, hd2,
                      show hexVal '0' = 0 from by decide]
                    have harith : 0 * 4096 + 0 * 256 + c.toNat / 16 * 16 + c.toNat % 16 =
                        c.toNat := by omega
                    rw [harith, Char.ofNat_toNat]
                    simp
                  · have he : escapeChar c = [c] := by
                      simp only [escapeChar]
                      rw [if_neg h1, if_neg h2, if_neg h3, if_neg h4, if_neg h5, if_neg h6,
                        if_neg h7, if_neg h8]
                    rw [he]
                    simp only [List.cons_append, List.nil_append]
                    rw [parseJString.eq_def]
                    simp only []
                    rw [if_neg h1, if_neg h2]
                    simp [ih]

theorem parseStrLit_render (s : String) (rest : List Char) :
    parseStrLit (renderQString s ++ rest) = some (s, rest) := by
  show parseStrLit ('"' :: (escapeChars s.data ++ ['"']) ++ rest) = some (s, rest)
  rw [List.cons_append, List.append_assoc, List.singleton_append]
  show (parseJString (escapeChars s.data ++ '"' :: rest)).map
      (fun p => (String.mk p.1, p.2)) = some (s, rest)
  rw [parseJString_escape s.data rest]
  simp [mk_data_eq]

theorem parsePair_render (p : String × String) (rest : List Char) :
    parsePair (renderPairChars p ++ rest) = some (p.1, p.2, rest) := by
  simp only [renderPairChars, List.append_assoc, List.cons_append, parsePair,
    parseStrLit_render]

end Scrap

namespace Scrap

set_option maxHeartbeats 1000000

theorem parseAttrTail_render : ∀ (ps : List (String × String)) (fuel : Nat) (rest : List Char),
    ps.length < fuel →
    parseAttrTail fuel (renderAttrTail ps ++ '\x7d' :: rest) = some (ps, rest)
  | [], fuel, rest, h => by
    obtain ⟨f, rfl⟩ : ∃ f, fuel = f + 1 := ⟨fuel - 1, by omega⟩
    rfl
  | p :: ps, fuel, rest, h => by
    obtain ⟨f, rfl⟩ : ∃ f, fuel = f + 1 := ⟨fuel - 1, by omega⟩
    have ih := parseAttrTail_render ps f rest (by simpa using Nat.lt_of_succ_lt_succ h)
    show parseAttrTail (f + 1)
        (',' :: (renderPairChars p ++ renderAttrTail ps) ++ '\x7d' :: rest) = some (p :: ps, rest)
    rw [List.cons_append, List.append_assoc]
    show (match parsePair (renderPairChars p ++ (renderAttrTail ps ++ '\x7d' :: rest)) with
      | some (k, v, r) =>
        match parseAttrTail f r with
        | some (l, r2) => some ((k, v) :: l, r2)
        | none => none
      | none => none) = some (p :: ps, rest)
    rw [parsePair_render]
    simp only []
    rw [ih]

theorem parseAttrsObj_render (l : List (String × String)) (fuel : Nat) (rest : List Char)
    (h : l.length < fuel) :
    parseAttrsObj fuel (renderAttrsObj l ++ rest) = some (l, rest) := by
  cases l with
  | nil => rfl
  | cons p ps =>
    have h1 : renderAttrsObj (p :: ps) ++ rest =
        '\x7b' :: '"' :: ((escapeChars p.1.data ++ ['"'] ++ ':' :: renderQString p.2) ++
          (renderAttrTail ps ++ '\x7d' :: rest)) := by
      show ('\x7b' :: (renderPairChars p ++ renderAttrTail ps ++ ['\x7d'])) ++ rest = _
      simp [renderPairChars, renderQString, List.append_assoc]
    have h2 : '"' :: ((escapeChars p.1.data ++ ['"'] ++ ':' :: renderQString p.2) ++
          (renderAttrTail ps ++ '\x7d' :: rest)) =
        renderPairChars p ++ (renderAttrTail ps ++ '\x7d' :: rest) := by
      simp [renderPairChars, renderQString, List.append_assoc]
    rw [h1]
    show (match parsePair ('"' :: ((escapeChars p.1.data ++ ['"'] ++ ':' :: renderQString p.2) ++
          (renderAttrTail ps ++ '}' :: rest))) with
      | some (k, v, r) =>
        match parseAttrTail fuel r with
        | some (l, r2) => some ((k, v) :: l, r2)
        | none => none
      | none => none) = some (p :: ps, rest)
    rw [h2, parsePair_render]
    simp only []
    rw [parseAttrTail_render ps fuel rest (by simpa using Nat.lt_of_succ_lt h)]

end Scrap

namespace Scrap

set_option maxHeartbeats 1000000

theorem parseItem_render (it : ControlItem) (fuel : Nat) (rest : List Char)
    (hwf : wfItem it) (hfuel : attrsLen it < fuel) :
    parseItem fuel (renderObjChars (to_compact_dict it) ++ rest) = some (it, rest) := by
  obtain ⟨tag, otext, oattrs⟩ := it
  cases otext with
  | none =>
    cases oattrs with
    | none =>
      simp [to_compact_dict, renderObjChars, renderFieldsTail, renderField, parseItem,
        parseStrLit_render, List.append_assoc]
    | some l =>
      have hl : ¬ l = [] := by
        intro hc
        exact hwf.2 (by rw [hc])
      have hobj := parseAttrsObj_render l fuel ('\x7d' :: rest) (by simpa [attrsLen] using hfuel)
      simp [to_compact_dict, renderObjChars, renderFieldsTail, renderField, parseItem,
        parseStrLit_render, hl, hobj, List.append_assoc]
  | some s =>
    have hs : ¬ s = "" := by
      intro hc
      exact hwf.1 (by rw [hc])
    cases oattrs with
    | none =>
      simp [to_compact_dict, renderObjChars, renderFieldsTail, renderField, parseItem,
        parseStrLit_render, hs, List.append_assoc]
    | some l =>
      have hl : ¬ l = [] := by
        intro hc
        exact hwf.2 (by rw [hc])
      have hobj := parseAttrsObj_render l fuel ('\x7d' :: rest) (by simpa [attrsLen] using hfuel)
      simp [to_compact_dict, renderObjChars, renderFieldsTail, renderField, parseItem,
        parseStrLit_render, hs, hl, hobj, List.append_assoc]

end Scrap

namespace Scrap

set_option maxHeartbeats 1000000

theorem parseItemsTail_render : ∀ (its : List ControlItem) (fuel : Nat) (rest : List Char),
    (∀ it ∈ its, wfItem it) → needItems its ≤ fuel →
    parseItemsTail fuel (renderArrTail (its.map to_compact_dict) ++ ']' :: rest) =
      some (its, rest)
  | [], fuel, rest, _, h => by
    obtain ⟨f, rfl⟩ : ∃ f, fuel = f + 1 := ⟨fuel - 1, by simp [needItems] at h; omega⟩
    rfl
  | it :: its, fuel, rest, hwf, h => by
    have hfuel : attrsLen it + 2 + needItems its ≤ fuel := by simpa [needItems] using h
    obtain ⟨f, rfl⟩ : ∃ f, fuel = f + 1 := ⟨fuel - 1, by omega⟩
    have hitem := parseItem_render it f (renderArrTail (its.map to_compact_dict) ++ ']' :: rest)
      (hwf it (by simp)) (by omega)
    have ih := parseItemsTail_render its f rest (fun x hx => hwf x (by simp [hx])) (by omega)
    show parseItemsTail (f + 1)
        (',' :: (renderObjChars (to_compact_dict it) ++ renderArrTail (its.map to_compact_dict))
          ++ ']' :: rest) = some (it :: its, rest)
    rw [List.cons_append, List.append_assoc]
    show (match parseItem f (renderObjChars (to_compact_dict it) ++
          (renderArrTail (its.map to_compact_dict) ++ ']' :: rest)) with
      | some (x, r) =>
        match parseItemsTail f r with
        | some (l, r2) => some (x :: l, r2)
        | none => none
      | none => none) = some (it :: its, rest)
    rw [hitem]
    simp only []
    rw [ih]

theorem length_renderQString (s : String) : 2 ≤ (renderQString s).length := by
  simp only [renderQString, List.length_cons, List.length_append]
  omega

theorem length_renderPairChars (p : String × String) : 5 ≤ (renderPairChars p).length := by
  have h1 := length_renderQString p.1
  have h2 := length_renderQString p.2
  simp only [renderPairChars, List.length_append, List.length_cons]
  omega

theorem length_renderAttrTail : ∀ ps : List (String × String),
    ps.length ≤ (renderAttrTail ps).length
  | [] => by simp [renderAttrTail]
  | p :: ps => by
    have ih := length_renderAttrTail ps
    have hp := length_renderPairChars p
    simp only [renderAttrTail, List.length_cons, List.length_append]
    omega

theorem length_renderAttrsObj (l : List (String × String)) :
    l.length + 2 ≤ (renderAttrsObj l).length := by
  cases l with
  | nil => simp [renderAttrsObj]
  | cons p ps =>
    have h1 := length_renderPairChars p
    have h2 := length_renderAttrTail ps
    simp only [renderAttrsObj, List.length_cons, List.length_append]
    omega

theorem length_renderObjChars (it : ControlItem) :
    attrsLen it + 2 ≤ (renderObjChars (to_compact_dict it)).length := by
  obtain ⟨tag, otext, oattrs⟩ := it
  have h3 := length_renderQString tag
  cases otext with
  | none =>
    cases oattrs with
    | none =>
      simp only [attrsLen, to_compact_dict, renderObjChars, renderFieldsTail, renderField,
        List.nil_append, List.append_nil, List.cons_append, List.append_assoc,
        List.length_append, List.length_cons, List.length_nil]
      omega
    | some l =>
      by_cases hl : l = []
      · subst hl
        simp only [attrsLen, to_compact_dict, renderObjChars, renderFieldsTail, renderField,
          if_pos, List.nil_append, List.append_nil, List.cons_append, List.append_assoc,
          List.length_append, List.length_cons, List.length_nil, List.length_singleton]
        omega
      · have h2 := length_renderAttrsObj l
        simp only [attrsLen, to_compact_dict, renderObjChars, renderFieldsTail, renderField,
          hl, if_neg, List.nil_append, List.append_nil, List.cons_append, List.append_assoc,
          List.length_append, List.length_cons, List.length_nil]
        omega
  | some s =>
    have h4 := length_renderQString s
    by_cases hs : s = ""
    · cases oattrs with
      | none =>
        simp only [attrsLen, to_compact_dict, renderObjChars, renderFieldsTail, renderField,
          hs, if_pos, List.nil_append, List.append_nil, List.cons_append, List.append_assoc,
          List.length_append, List.length_cons, List.length_nil, List.length_singleton]
        omega
      | some l =>
        by_cases hl : l = []
        · subst hl
          simp only [attrsLen, to_compact_dict, renderObjChars, renderFieldsTail, renderField,
            hs, if_pos, List.nil_append, List.append_nil, List.cons_append, List.append_assoc,
            List.length_append, List.length_cons, List.length_nil, List.length_singleton]
          omega
        · have h2 := length_renderAttrsObj l
          simp only [attrsLen, to_compact_dict, renderObjChars, renderFieldsTail, renderField,
            hs, hl, if_pos, if_neg, List.nil_append, List.append_nil, List.cons_append,
            List.append_assoc, List.length_append, List.length_cons, List.length_nil]
          omega
    · cases oattrs with
      | none =>
        simp only [attrsLen, to_compact_dict, renderObjChars, renderFieldsTail, renderField,
          hs, if_neg, List.nil_append, List.append_nil, List.cons_append, List.append_assoc,
          List.length_append, List.length_cons, List.length_nil]
        omega
      | some l =>
        by_cases hl : l = []
        · subst hl
          simp only [attrsLen, to_compact_dict, renderObjChars, renderFieldsTail, renderField,
            hs, if_neg, if_pos, List.nil_append, List.append_nil, List.cons_append,
            List.append_assoc, List.length_append, List.length_cons, List.length_nil,
            List.length_singleton]
          omega
        · have h2 := length_renderAttrsObj l
          simp only [attrsLen, to_compact_dict, renderObjChars, renderFieldsTail, renderField,
            hs, hl, if_neg, List.nil_append, List.append_nil, List.cons_append,
            List.append_assoc, List.length_append, List.length_cons, List.length_nil]
          omega

theorem length_renderArrTail : ∀ its : List ControlItem,
    needItems its ≤ (renderArrTail (its.map to_compact_dict)).length + 2
  | [] => by simp [needItems, renderArrTail]
  | it :: its => by
    have h1 := length_renderObjChars it
    have ih := length_renderArrTail its
    simp only [needItems, List.map_cons, renderArrTail, List.length_cons, List.length_append]
    omega

theorem length_renderArrChars (its : List ControlItem) :
    needItems its ≤ (renderArrChars (its.map to_compact_dict)).length + 1 := by
  cases its with
  | nil => simp [needItems, renderArrChars]
  | cons it its =>
    have h1 := length_renderObjChars it
    have h2 := length_renderArrTail its
    simp only [needItems, List.map_cons, renderArrChars, List.length_cons, List.length_append]
    omega

end Scrap

namespace Scrap

set_option maxHeartbeats 1000000

theorem wf_extract {soup : NodeList} {n : Int} {it : ControlItem}
    (h : it ∈ extract_controls_inventory soup n) : wfItem it := by
  obtain ⟨tag, attrs, children, _, hp⟩ := mem_extract h
  obtain ⟨heq, _⟩ := processNode_elem_eq hp
  subst heq
  constructor
  · by_cases htext : truncateText n (normalizeChars (elementText children)) = []
    · simp [htext]
    · simp only [htext, if_neg, if_false, ne_eq, Option.some.injEq]
      intro hc
      exact htext (by simpa using congrArg String.data hc)
  · by_cases hattrs : _filter_attrs attrs = []
    · simp [hattrs]
    · simp [hattrs]

theorem parseInventory_render (items : List ControlItem) (hwf : ∀ it ∈ items, wfItem it) :
    parseInventory (inventory_to_json items) = some items := by
  cases items with
  | nil => rfl
  | cons it its =>
    have hlen := length_renderArrChars (it :: its)
    have hobj1 := length_renderObjChars it
    have htail := length_renderArrTail its
    have hneed : needItems (it :: its) = attrsLen it + 2 + needItems its := rfl
    set s := inventory_to_json (it :: its) with hs
    have hdata : s.data = '[' :: (renderObjChars (to_compact_dict it) ++
        (renderArrTail (its.map to_compact_dict) ++ [']'])) := by
      rw [hs]
      show (renderArrChars ((it :: its).map to_compact_dict)) = _
      simp [renderArrChars, List.append_assoc]
    have hslen : s.length = (renderArrChars ((it :: its).map to_compact_dict)).length := rfl
    have hhead : ∃ t, renderObjChars (to_compact_dict it) = '\x7b' :: t := by
      show ∃ t, renderObjChars (("tag", JField.jstr it.tag) :: _) = '\x7b' :: t
      exact ⟨_, rfl⟩
    obtain ⟨t, ht⟩ := hhead
    have hitem := parseItem_render it (s.length + 1)
      (renderArrTail (its.map to_compact_dict) ++ ']' :: [])
      (hwf it (by simp)) (by rw [hslen]; omega)
    have htl := parseItemsTail_render its (s.length + 1) []
      (fun x hx => hwf x (by simp [hx])) (by rw [hslen]; omega)
    rw [parseInventory]
    rw [hdata]
    have hexp : '[' :: (renderObjChars (to_compact_dict it) ++
        (renderArrTail (its.map to_compact_dict) ++ [']'])) =
        '[' :: '{' :: (t ++ (renderArrTail (its.map to_compact_dict) ++ [']'])) := by
      rw [ht]
      rfl
    rw [hexp]
    show (match parseItem (s.length + 1)
          ('{' :: (t ++ (renderArrTail (its.map to_compact_dict) ++ [']']))) with
      | some (x, r) =>
        match parseItemsTail (s.length + 1) r with
        | some (l, []) => some (x :: l)
        | _ => none
      | none => none) = some (it :: its)
    have hexp2 : '{' :: (t ++ (renderArrTail (its.map to_compact_dict) ++ [']'])) =
        renderObjChars (to_compact_dict it) ++
          (renderArrTail (its.map to_compact_dict) ++ [']']) := by
      rw [ht]
      rfl
    rw [hexp2, hitem]
    simp only []
    rw [htl]

/-- C8: serializing any extractor output and parsing the resulting JSON
document recovers exactly the same sequence of Control Items. -/
theorem C8_roundtrip (soup : NodeList) (n : Int) :
    parseInventory (inventory_to_json (extract_controls_inventory soup n)) =
      some (extract_controls_inventory soup n) :=
  parseInventory_render _ (fun _ hx => wf_extract hx)

end Scrap

namespace Scrap

set_option maxRecDepth 8000

/-- C7: the serializer emits one JSON object per item in input order; the
`tag` key is always present, `text` is present exactly when the item's text
is a non-empty string, `attrs` exactly when the attribute mapping is
non-empty; the output of the concrete sample is compact (no whitespace
outside string data) and keeps non-ASCII characters literal. -/
theorem C7_serializer_shape :
    (∀ items : List ControlItem,
        inventory_to_json items = String.mk (renderArrChars (items.map to_compact_dict)) ∧
        (items.map to_compact_dict).length = items.length) ∧
    (∀ it : ControlItem, ("tag", JField.jstr it.tag) ∈ to_compact_dict it) ∧
    (∀ it : ControlItem,
        ("text" ∈ (to_compact_dict it).map Prod.fst ↔ ∃ s, it.text = some s ∧ s ≠ "")) ∧
    (∀ it : ControlItem,
        ("attrs" ∈ (to_compact_dict it).map Prod.fst ↔ ∃ l, it.attrs = some l ∧ l ≠ [])) ∧
    inventory_to_json [⟨"a", some "héllo…", some [("href", "/x")]⟩] =
      "[\x7b\"tag\":\"a\",\"text\":\"héllo…\",\"attrs\":\x7b\"href\":\"/x\"\x7d\x7d]" := by
  refine ⟨fun items => ⟨rfl, by simp⟩, ?_, ?_, ?_, by decide⟩
  · intro it
    simp [to_compact_dict]
  · intro it
    obtain ⟨tag, otext, oattrs⟩ := it
    cases otext with
    | none =>
      cases oattrs with
      | none => simp [to_compact_dict]
      | some l => by_cases hl : l = [] <;> simp [to_compact_dict, hl]
    | some s =>
      by_cases hs : s = ""
      · subst hs
        cases oattrs with
        | none => simp [to_compact_dict]
        | some l => by_cases hl : l = [] <;> simp [to_compact_dict, hl]
      · cases oattrs with
        | none => simp [to_compact_dict, hs]
        | some l => by_cases hl : l = [] <;> simp [to_compact_dict, hs, hl]
  · intro it
    obtain ⟨tag, otext, oattrs⟩ := it
    cases oattrs with
    | none =>
      cases otext with
      | none => simp [to_compact_dict]
      | some s => by_cases hs : s = "" <;> simp [to_compact_dict, hs]
    | some l =>
      by_cases hl : l = []
      · subst hl
        cases otext with
        | none => simp [to_compact_dict]
        | some s => by_cases hs : s = "" <;> simp [to_compact_dict, hs]
      · cases otext with
        | none => simp [to_compact_dict, hl]
        | some s => by_cases hs : s = "" <;> simp [to_compact_dict, hs, hl]

end Scrap
